import Mathlib

/-!
Verification of the agent-planner service (knowledge curator, program
synthesizer, financial plan, and job lifecycle) against its specification.

The Python source is shallowly embedded: candidate dictionaries become
structures with optional fields, Python floats become exact rationals,
and the post-LLM pipeline of each operation becomes a pure Lean function.
-/

namespace Premisia

/-! ## Knowledge candidates (knowledge_curator.py)

A candidate is a JSON dictionary produced by the LLM-extraction step.
Required fields may be absent; `confidence` is numeric when present. -/

structure Candidate where
  content : Option String
  summary : Option String
  type : Option String
  scope : Option String
  confidence : Option ℚ
  tags : List String
  supporting_agents : List String
  contradicting_agents : List String
deriving DecidableEq, Repr

/-- `KnowledgeCurator.KNOWLEDGE_TYPES`. -/
def KNOWLEDGE_TYPES : List String :=
  ["fact", "estimate", "constraint", "lesson_learned", "decision_rationale", "pattern"]

/-- `KnowledgeCurator.KNOWLEDGE_SCOPES`. -/
def KNOWLEDGE_SCOPES : List String :=
  ["organization", "industry", "program_specific"]

/-- `KnowledgeCurator._validate_candidate`: the five required fields are
present, type and scope are in the taxonomies, confidence is in [0,1]. -/
def validate_candidate (c : Candidate) : Bool :=
  c.content.isSome && c.summary.isSome && c.type.isSome && c.scope.isSome &&
  c.confidence.isSome &&
  (match c.type with
   | some t => KNOWLEDGE_TYPES.contains t
   | none => false) &&
  (match c.scope with
   | some s => KNOWLEDGE_SCOPES.contains s
   | none => false) &&
  (match c.confidence with
   | some q => decide (0 ≤ q) && decide (q ≤ 1)
   | none => false)

/-- The word splitter behind Python `s.split()`: cut at whitespace runs,
dropping empty pieces (accumulator holds the current word reversed). -/
def wordsGo : List Char → List Char → List (List Char)
  | [], acc => if acc = [] then [] else [acc.reverse]
  | c :: rest, acc =>
    if c.isWhitespace then
      if acc = [] then wordsGo rest [] else acc.reverse :: wordsGo rest []
    else wordsGo rest (c :: acc)

/-- Python `s.split()`. -/
def pyWords (s : String) : List String := (wordsGo s.data []).map String.mk

/-- Python `s.lower()` (code-point-wise lowering). -/
def pyLower (s : String) : String := String.mk (s.data.map Char.toLower)

/-- Python `s.strip()`: drop whitespace from both ends. -/
def pyStrip (s : String) : String :=
  String.mk (((s.data.dropWhile Char.isWhitespace).reverse.dropWhile
    Char.isWhitespace).reverse)

/-- Python `s[:n]`. -/
def pyTake (s : String) (n : Nat) : String := String.mk (s.data.take n)

/-- Keep the first occurrence of each word: a Python `set` as a
duplicate-free list. -/
def uniqueWordsGo (seen : List String) : List String → List String
  | [] => []
  | w :: rest =>
    if w ∈ seen then uniqueWordsGo seen rest
    else w :: uniqueWordsGo (w :: seen) rest

/-- The word set of a string, as a duplicate-free list. -/
def wordSet (s : String) : List String := uniqueWordsGo [] (pyWords s)

/-- `KnowledgeCurator._similarity_score`: word-set Jaccard similarity
`len(words1 & words2) / len(words1 | words2)`, zero when either side is
empty (`Rat.divInt` is exact division here, both arguments being
integral). -/
def similarity_score (s1 s2 : String) : ℚ :=
  let w1 := wordSet s1
  let w2 := wordSet s2
  if w1 = [] ∨ w2 = [] then 0
  else Rat.divInt (w1.filter (fun w => w ∈ w2)).length (uniqueWordsGo [] (w1 ++ w2)).length

/-- `candidate.get("summary", "").lower().strip()` -/
def summaryKey (c : Candidate) : String := pyStrip (pyLower (c.summary.getD ""))

/-- `candidate.get("content", "")[:100].lower()` -/
def contentKey (c : Candidate) : String := pyLower (pyTake (c.content.getD "") 100)

/-- The inner similarity test of `_deduplicate_candidates`:
`self._similarity_score(content_key, existing_content) > 0.8`
(`mkRat 8 10` is the exact value of the literal `0.8`). -/
def isDupOf (c e : Candidate) : Bool :=
  decide (mkRat 8 10 < similarity_score (contentKey c) (contentKey e))

/-- The loop of `KnowledgeCurator._deduplicate_candidates`, with the
accumulated unique list, the set of seen summaries, and the duplicate
count made explicit. -/
def dedupGo : List Candidate → List Candidate → List String → Nat →
    List Candidate × Nat
  | [], unique, _, dups => (unique, dups)
  | c :: rest, unique, seen, dups =>
    if summaryKey c ∈ seen then
      dedupGo rest unique seen (dups + 1)
    else if unique.any (isDupOf c) then
      dedupGo rest unique seen (dups + 1)
    else
      dedupGo rest (unique ++ [c]) (seen ++ [summaryKey c]) dups

/-- `KnowledgeCurator._deduplicate_candidates`. -/
def deduplicate_candidates (candidates : List Candidate) : List Candidate × Nat :=
  dedupGo candidates [] [] 0

/-- `KnowledgeCurator._categorize_by_confidence`: partition into
(verified, contested, rejected), preserving input order. The float
literals 0.6, 0.7, 0.4 of the source are the exact rationals
`mkRat 6 10`, `mkRat 7 10`, `mkRat 4 10`. -/
def categorize_by_confidence : List Candidate →
    List Candidate × List Candidate × List Candidate
  | [] => ([], [], [])
  | c :: rest =>
    let prev := categorize_by_confidence rest
    let conf := c.confidence.getD 0
    if c.contradicting_agents ≠ [] then
      if mkRat 6 10 ≤ conf then (prev.1, c :: prev.2.1, prev.2.2)
      else (prev.1, prev.2.1, c :: prev.2.2)
    else if mkRat 7 10 ≤ conf then (c :: prev.1, prev.2.1, prev.2.2)
    else if mkRat 4 10 ≤ conf then (prev.1, c :: prev.2.1, prev.2.2)
    else (prev.1, prev.2.1, c :: prev.2.2)

/-- The projection of a `KnowledgeEmission` that the curation statistics
depend on (summary, confidence, verification status). -/
structure EmissionK where
  summary : String
  confidence : ℚ
  verification_status : String
deriving DecidableEq, Repr

/-- `KnowledgeCurator._create_emission`, projected to the fields above:
`summary=candidate.get("summary", "")`, `confidence=candidate.get("confidence", 0.5)`. -/
def create_emission (c : Candidate) (status : String) : EmissionK :=
  { summary := c.summary.getD ""
    confidence := c.confidence.getD (mkRat 5 10)
    verification_status := status }

/-- The fields of a `Risk` used by the curator's fallback generation. -/
structure RiskK where
  description : String
  impact : String
deriving DecidableEq, Repr

/-- The fields of a `Workstream` used by the curator's fallback generation. -/
structure WsK where
  name : String
  dependencies : List String
deriving DecidableEq, Repr

/-- The fields of an `EPMProgram` the curator's fallback generation reads.
`timeline` and `resource_plan` are required (always truthy) pydantic
sub-models, so only `total_months`, the risk list and the workstreams can
switch fallback emissions off. -/
structure ProgramK where
  timeline_total_months : Int
  risks : List RiskK
  workstreams : List WsK
deriving DecidableEq, Repr

/-- `KnowledgeCurator._generate_fallback_emissions`, projected to the
summary/confidence/status of each emission, in source order: the timeline
benchmark (when `total_months` is truthy), the resource sizing guideline
(`program.resource_plan` is always truthy), the high-impact-risk lesson,
and one dependency constraint per workstream with dependencies among the
first three. -/
def generate_fallback_emissions (p : ProgramK) : List EmissionK :=
  (if p.timeline_total_months ≠ 0 then
    [{ summary := "Program duration benchmark", confidence := mkRat 8 10,
       verification_status := "verified" }]
   else []) ++
  [{ summary := "Resource sizing guidelines", confidence := mkRat 75 100,
     verification_status := "verified" }] ++
  (if (p.risks.filter (fun r => r.impact = "high")) ≠ [] then
    [{ summary := "Critical risk patterns", confidence := mkRat 85 100,
       verification_status := "verified" }]
   else []) ++
  (((p.workstreams.take 3).filter (fun ws => ws.dependencies ≠ [])).map
    (fun ws => { summary := ws.name ++ " dependency constraint", confidence := mkRat 9 10,
                 verification_status := "verified" }))

/-- `KnowledgeStats`. -/
structure StatsK where
  total_candidates : Nat
  verified : Nat
  deduplicated : Nat
  emitted : Nat
  contested : Nat
  rejected : Nat
  flagged_for_review : Nat
deriving DecidableEq, Repr

/-- `KnowledgeLedger`, over the projected emissions. -/
structure LedgerK where
  emissions : List EmissionK
  contested : List EmissionK
  rejected : List EmissionK
  stats : StatsK
deriving DecidableEq, Repr

/-- The pure tail of `KnowledgeCurator.curate`: everything after the LLM
call, as a function of the raw candidate list the LLM extraction returned
and of the program. Validation, deduplication, confidence triage, emission
construction, fallback top-up below five verified emissions, and the stats
block. -/
def curate (raw_candidates : List Candidate) (program : ProgramK) : LedgerK :=
  let valid_candidates := raw_candidates.filter validate_candidate
  let dedup := deduplicate_candidates valid_candidates
  let unique_candidates := dedup.1
  let duplicates_removed := dedup.2
  let cats := categorize_by_confidence unique_candidates
  let emissions0 := cats.1.map (fun c => create_emission c "verified")
  let contested := cats.2.1.map (fun c => create_emission c "contested")
  let rejected := cats.2.2.map (fun c => create_emission c "hypothesis")
  let emissions :=
    if emissions0.length < 5 then
      let existing_summaries := emissions0.map (fun e => e.summary)
      emissions0 ++
        (generate_fallback_emissions program).filter
          (fun fb => fb.summary ∉ existing_summaries)
    else emissions0
  { emissions := emissions
    contested := contested
    rejected := rejected
    stats :=
      { total_candidates := raw_candidates.length
        verified := emissions.length
        deduplicated := duplicates_removed
        emitted := emissions.length
        contested := contested.length
        rejected := rejected.length
        flagged_for_review := (emissions.filter (fun e => e.confidence < mkRat 8 10)).length } }

/-! ### Lemmas about deduplication -/

theorem dedupGo_length (l : List Candidate) :
    ∀ u s d, (dedupGo l u s d).1.length + (dedupGo l u s d).2 = u.length + d + l.length := by
  induction l with
  | nil => intro u s d; simp [dedupGo]
  | cons c rest ih =>
    intro u s d
    by_cases h1 : summaryKey c ∈ s
    · simp only [dedupGo, if_pos h1, List.length_cons]
      have := ih u s (d + 1)
      omega
    · by_cases h2 : u.any (isDupOf c) = true
      · simp only [dedupGo, if_neg h1, h2, if_true, List.length_cons]
        have := ih u s (d + 1)
        omega
      · rw [Bool.not_eq_true] at h2
        simp only [dedupGo, if_neg h1, h2, Bool.false_eq_true, if_false, List.length_cons]
        have := ih (u ++ [c]) (s ++ [summaryKey c]) d
        simp only [List.length_append, List.length_singleton] at this
        omega

theorem dedupGo_sublist (l : List Candidate) :
    ∀ u s d, ∃ t, (dedupGo l u s d).1 = u ++ t ∧ t.Sublist l := by
  induction l with
  | nil =>
    intro u s d
    exact ⟨[], by simp [dedupGo], List.Sublist.refl _⟩
  | cons c rest ih =>
    intro u s d
    by_cases h1 : summaryKey c ∈ s
    · obtain ⟨t, ht, hs⟩ := ih u s (d + 1)
      exact ⟨t, by simpa [dedupGo, h1] using ht, hs.cons c⟩
    · by_cases h2 : u.any (isDupOf c) = true
      · obtain ⟨t, ht, hs⟩ := ih u s (d + 1)
        refine ⟨t, ?_, hs.cons c⟩
        simpa [dedupGo, h1, h2] using ht
      · obtain ⟨t, ht, hs⟩ := ih (u ++ [c]) (s ++ [summaryKey c]) d
        refine ⟨c :: t, ?_, hs.cons₂ c⟩
        rw [Bool.not_eq_true] at h2
        simp only [dedupGo, if_neg h1, h2, Bool.false_eq_true, if_false]
        simpa [List.append_assoc] using ht

/-- The accepted-list invariant: the seen-summaries set holds exactly the
summaries of the accepted candidates. -/
def seenInv (s : List String) (u : List Candidate) : Prop :=
  ∀ x, x ∈ s ↔ x ∈ u.map summaryKey

theorem seenInv_nil : seenInv [] [] := by
  intro x; simp

theorem seenInv_snoc {s : List String} {u : List Candidate} (c : Candidate)
    (h : seenInv s u) : seenInv (s ++ [summaryKey c]) (u ++ [c]) := by
  intro x
  simp only [List.mem_append, List.mem_singleton, List.map_append, List.map_cons,
    List.map_nil, h x]

/-- A candidate is fresh for an accepted list when neither rejection test
of the dedup loop fires. -/
def freshFor (u : List Candidate) (c : Candidate) : Prop :=
  summaryKey c ∉ u.map summaryKey ∧ u.any (isDupOf c) = false

/-- A list extends an accepted list candidate by candidate, each one fresh
for everything accepted before it. -/
inductive FreshChain : List Candidate → List Candidate → Prop
  | nil (u : List Candidate) : FreshChain u []
  | cons (u : List Candidate) (c : Candidate) (t : List Candidate) :
      freshFor u c → FreshChain (u ++ [c]) t → FreshChain u (c :: t)

theorem dedupGo_fresh (l : List Candidate) :
    ∀ u s d, seenInv s u →
      ∃ t, (dedupGo l u s d).1 = u ++ t ∧ FreshChain u t := by
  induction l with
  | nil =>
    intro u s d _
    exact ⟨[], by simp [dedupGo], FreshChain.nil u⟩
  | cons c rest ih =>
    intro u s d hinv
    by_cases h1 : summaryKey c ∈ s
    · obtain ⟨t, ht, hf⟩ := ih u s (d + 1) hinv
      exact ⟨t, by simpa [dedupGo, h1] using ht, hf⟩
    · by_cases h2 : u.any (isDupOf c) = true
      · obtain ⟨t, ht, hf⟩ := ih u s (d + 1) hinv
        exact ⟨t, by simpa [dedupGo, h1, h2] using ht, hf⟩
      · rw [Bool.not_eq_true] at h2
        obtain ⟨t, ht, hf⟩ := ih (u ++ [c]) (s ++ [summaryKey c]) d (seenInv_snoc c hinv)
        refine ⟨c :: t, ?_, FreshChain.cons u c t ⟨fun hm => h1 ((hinv _).2 hm), h2⟩ hf⟩
        simp only [dedupGo, if_neg h1, h2, Bool.false_eq_true, if_false]
        simpa [List.append_assoc] using ht

theorem dedupGo_of_freshChain {u t : List Candidate} (hf : FreshChain u t) :
    ∀ s d, seenInv s u → dedupGo t u s d = (u ++ t, d) := by
  induction hf with
  | nil u => intro s d _; simp [dedupGo]
  | cons u c t hfresh _ ih =>
    intro s d hinv
    have h1 : summaryKey c ∉ s := fun hx => hfresh.1 ((hinv _).1 hx)
    have h2 : u.any (isDupOf c) = false := hfresh.2
    simp only [dedupGo, if_neg h1, h2, Bool.false_eq_true, if_false]
    rw [ih (s ++ [summaryKey c]) d (seenInv_snoc c hinv)]
    simp [List.append_assoc]

/-- C6. Deduplication of knowledge candidates is idempotent: applying
`_deduplicate_candidates` to its own unique output returns that output
unchanged and reports zero additional duplicates, for every candidate
list (duplicates being by lower-cased trimmed summary match against an
accepted candidate or word-set Jaccard similarity above 0.8 on the
lower-cased first 100 characters of content). -/
theorem deduplicate_candidates_idempotent (candidates : List Candidate) :
    deduplicate_candidates (deduplicate_candidates candidates).1
      = ((deduplicate_candidates candidates).1, 0) := by
  obtain ⟨t, ht, hf⟩ := dedupGo_fresh candidates [] [] 0 seenInv_nil
  have ht' : (deduplicate_candidates candidates).1 = t := by
    simpa [deduplicate_candidates] using ht
  rw [ht', deduplicate_candidates, dedupGo_of_freshChain hf [] 0 seenInv_nil]
  simp

/-- C10. Conservation invariant of deduplication: the kept list and the
duplicate count of `_deduplicate_candidates` add up to the input length,
and the kept list is a subsequence of the input (kept in input order). -/
theorem deduplicate_candidates_conservation (candidates : List Candidate) :
    (deduplicate_candidates candidates).1.length + (deduplicate_candidates candidates).2
      = candidates.length
    ∧ (deduplicate_candidates candidates).1.Sublist candidates := by
  constructor
  · simpa [deduplicate_candidates] using dedupGo_length candidates [] [] 0
  · obtain ⟨t, ht, hs⟩ := dedupGo_sublist candidates [] [] 0
    have : (deduplicate_candidates candidates).1 = t := by
      simpa [deduplicate_candidates] using ht
    rw [this]; exact hs

/-! ### The stats block of `curate` (C1) -/

theorem categorize_length (l : List Candidate) :
    (categorize_by_confidence l).1.length + (categorize_by_confidence l).2.1.length
      + (categorize_by_confidence l).2.2.length = l.length := by
  induction l with
  | nil => simp [categorize_by_confidence]
  | cons c rest ih =>
    simp only [categorize_by_confidence, List.length_cons]
    split_ifs <;> simp only [List.length_cons] <;> omega

/-- The demonstration program for C1's counterexample: a nonzero timeline
makes the fallback generation produce top-up emissions. -/
def pEx : ProgramK := { timeline_total_months := 6, risks := [], workstreams := [] }

/-- C1, counterexample. On a run with zero raw candidates the fallback
top-up populates the emitted list, so the stats equation
`verified + contested + rejected = number of valid candidates after
deduplication` fails (2 ≠ 0): the claim is false as stated for runs where
fallback top-up emissions are appended. -/
theorem curate_stats_claim_counterexample :
    ¬ ((curate [] pEx).stats.verified + (curate [] pEx).stats.contested
        + (curate [] pEx).stats.rejected
      = (deduplicate_candidates (([] : List Candidate).filter validate_candidate)).1.length) := by
  decide

/-- C1, amended. For every curation run: the verified count in stats
equals the length of the emitted emissions list; the number of
triage-verified candidates plus the contested and rejected counts equals
the number of valid candidates remaining after deduplication; and when at
least five emissions are verified by triage (so no fallback top-up is
appended) the stats equation holds exactly as originally claimed. -/
theorem curate_stats_amended (raw : List Candidate) (p : ProgramK) :
    (curate raw p).stats.verified = (curate raw p).emissions.length
    ∧ (categorize_by_confidence
          (deduplicate_candidates (raw.filter validate_candidate)).1).1.length
        + (curate raw p).stats.contested + (curate raw p).stats.rejected
      = (deduplicate_candidates (raw.filter validate_candidate)).1.length
    ∧ (5 ≤ (categorize_by_confidence
            (deduplicate_candidates (raw.filter validate_candidate)).1).1.length →
        (curate raw p).stats.verified + (curate raw p).stats.contested
          + (curate raw p).stats.rejected
        = (deduplicate_candidates (raw.filter validate_candidate)).1.length) := by
  refine ⟨rfl, ?_, ?_⟩
  · simp only [curate, List.length_map]
    exact categorize_length _
  · intro h5
    have hlen := categorize_length (deduplicate_candidates (raw.filter validate_candidate)).1
    simp only [curate, List.length_map, if_neg (by omega : ¬ (categorize_by_confidence
      (deduplicate_candidates (raw.filter validate_candidate)).1).1.length < 5)]
    omega

/-- A well-formed candidate for witnesses. -/
def mkCand (content summary : String) (conf : ℚ) : Candidate :=
  { content := some content, summary := some summary, type := some "fact",
    scope := some "industry", confidence := some conf, tags := [],
    supporting_agents := [], contradicting_agents := [] }

/-- Five pairwise-dissimilar verified-grade candidates. -/
def wraw : List Candidate :=
  [mkCand "alpha one" "s1" (mkRat 9 10), mkCand "beta two" "s2" (mkRat 9 10),
   mkCand "gamma three" "s3" (mkRat 9 10), mkCand "delta four" "s4" (mkRat 9 10),
   mkCand "epsilon five" "s5" (mkRat 9 10)]

/-- C1, witness: on a run with five triage-verified candidates the
original stats equation holds, by the amended theorem. -/
theorem curate_stats_amended_witness :
    (curate wraw pEx).stats.verified + (curate wraw pEx).stats.contested
      + (curate wraw pEx).stats.rejected
    = (deduplicate_candidates (wraw.filter validate_candidate)).1.length :=
  (curate_stats_amended wraw pEx).2.2 (by decide)

/-! ## The financial plan (program_crew.py) -/

/-- `FinancialItem`. -/
structure FinancialItem where
  category : String
  description : String
  amount : ℚ
  frequency : String
deriving Repr

/-- `FinancialPlan`. -/
structure FinancialPlanM where
  capex : List FinancialItem
  opex : List FinancialItem
  total_budget : ℚ
  contingency : ℚ
deriving Repr

/-- `Constraints` (resource limits are unused by the financial plan). -/
structure ConstraintsM where
  budget : Option ℚ
  deadline : Option String
  regulations : Option (List String)
deriving Repr

/-- `ResourceRequirement`. -/
structure ResourceRequirementM where
  role : String
  skills : List String
  allocation : ℚ
  cost_per_month : Option ℚ
deriving Repr

/-- `ResourcePlan`. -/
structure ResourcePlanM where
  roles : List ResourceRequirementM
  total_headcount : Nat
  total_cost : ℚ
deriving Repr

/-- `ProgramPlanningCrew._build_resource_plan`: total cost is
`Σ (cost_per_month or 10000) × allocation × 6`. -/
def build_resource_plan (resources : List ResourceRequirementM) : ResourcePlanM :=
  { roles := resources
    total_headcount := resources.length
    total_cost := (resources.map (fun r => (r.cost_per_month.getD 10000) * r.allocation * 6)).sum }

/-- `ProgramPlanningCrew._build_financial_plan`. A supplied budget is
truthy when nonzero; when the computed total exceeds it, every capex and
opex amount is scaled by `budget / total_budget`, the total is replaced by
the budget, and the contingency is 10% (`* 0.1`, exactly `* (1/10)`) of
the final total. -/
def build_financial_plan (resource_plan : ResourcePlanM)
    (constraints : Option ConstraintsM) : FinancialPlanM :=
  let personnel_cost := resource_plan.total_cost / 6
  let capex : List FinancialItem :=
    [{ category := "Technology", description := "Software licenses and tools",
       amount := 50000, frequency := "one_time" },
     { category := "Infrastructure", description := "Cloud infrastructure setup",
       amount := 25000, frequency := "one_time" }]
  let opex : List FinancialItem :=
    [{ category := "Personnel", description := "Team salaries",
       amount := personnel_cost, frequency := "monthly" },
     { category := "Operations", description := "Ongoing operational costs",
       amount := 10000, frequency := "monthly" }]
  let total_budget : ℚ := 75000 + (personnel_cost + 10000) * 6
  match constraints with
  | some cs =>
    match cs.budget with
    | some b =>
      if b ≠ 0 ∧ total_budget > b then
        let scale_factor := b / total_budget
        { capex := capex.map (fun it => { it with amount := it.amount * scale_factor })
          opex := opex.map (fun it => { it with amount := it.amount * scale_factor })
          total_budget := b
          contingency := b * (1 / 10) }
      else
        { capex := capex, opex := opex, total_budget := total_budget,
          contingency := total_budget * (1 / 10) }
    | none =>
      { capex := capex, opex := opex, total_budget := total_budget,
        contingency := total_budget * (1 / 10) }
  | none =>
    { capex := capex, opex := opex, total_budget := total_budget,
      contingency := total_budget * (1 / 10) }

/-- C2. For every input whose computed total budget is 435000 and whose
supplied budget constraint is 200000, the financial-plan builder scales
every capex and opex amount by 200000/435000, the resulting total budget
is exactly 200000, and the contingency is exactly 20000. -/
theorem financial_plan_budget_scaling (rp : ResourcePlanM) (cs : ConstraintsM)
    (hb : cs.budget = some 200000)
    (ht : (75000 : ℚ) + (rp.total_cost / 6 + 10000) * 6 = 435000) :
    (build_financial_plan rp (some cs)).total_budget = 200000
    ∧ (build_financial_plan rp (some cs)).contingency = 20000
    ∧ (build_financial_plan rp (some cs)).capex.map (fun it => it.amount)
        = [50000 * (200000 / 435000), 25000 * (200000 / 435000)]
    ∧ (build_financial_plan rp (some cs)).opex.map (fun it => it.amount)
        = [(rp.total_cost / 6) * (200000 / 435000), 10000 * (200000 / 435000)] := by
  have hp : rp.total_cost / 6 = 50000 := by linarith
  have hcond : (200000 : ℚ) ≠ 0 ∧ (75000 : ℚ) + (rp.total_cost / 6 + 10000) * 6 > 200000 := by
    refine ⟨by norm_num, ?_⟩
    rw [ht]; norm_num
  simp only [build_financial_plan, hb, if_pos hcond, List.map_cons, List.map_nil, ht, hp]
  norm_num

/-- A concrete resource list whose plan costs 300000 in total. -/
def wroles : List ResourceRequirementM :=
  [{ role := "Strategy Consultant", skills := ["Strategic Planning"],
     allocation := 1, cost_per_month := some 50000 }]

theorem wroles_total : (75000 : ℚ)
    + ((build_resource_plan wroles).total_cost / 6 + 10000) * 6 = 435000 := by
  simp [build_resource_plan, wroles]
  norm_num

/-- C2, witness: the concrete scenario of the claim, by the theorem. -/
theorem financial_plan_budget_scaling_witness :
    (build_financial_plan (build_resource_plan wroles)
        (some { budget := some 200000, deadline := none, regulations := none })).total_budget
      = 200000
    ∧ (build_financial_plan (build_resource_plan wroles)
        (some { budget := some 200000, deadline := none, regulations := none })).contingency
      = 20000
    ∧ (build_financial_plan (build_resource_plan wroles)
        (some { budget := some 200000, deadline := none, regulations := none })).capex.map
          (fun it => it.amount)
      = [50000 * (200000 / 435000), 25000 * (200000 / 435000)]
    ∧ (build_financial_plan (build_resource_plan wroles)
        (some { budget := some 200000, deadline := none, regulations := none })).opex.map
          (fun it => it.amount)
      = [((build_resource_plan wroles).total_cost / 6) * (200000 / 435000),
         10000 * (200000 / 435000)] :=
  financial_plan_budget_scaling (build_resource_plan wroles)
    { budget := some 200000, deadline := none, regulations := none } rfl wroles_total

/-! ## JSON values and `json.loads`

The extraction helpers of both crews scrape a fenced or bare JSON payload
out of LLM text with `str.find`, slicing, `json.loads` and one regex.
JSON values are modelled exactly; numbers are exact rationals. -/

mutual

inductive Json where
  | null
  | bool (b : Bool)
  | num (q : ℚ)
  | str (s : String)
  | arr (xs : JItems)
  | obj (fields : JFields)
deriving DecidableEq

inductive JItems where
  | nil
  | cons (hd : Json) (tl : JItems)
deriving DecidableEq

inductive JFields where
  | nil
  | cons (key : String) (val : Json) (tl : JFields)
deriving DecidableEq

end

/-- Build a JSON array payload from a list. -/
def JItems.ofList : List Json → JItems
  | [] => .nil
  | x :: xs => .cons x (JItems.ofList xs)

/-- The items of a JSON array as a list. -/
def JItems.toList : JItems → List Json
  | .nil => []
  | .cons x xs => x :: xs.toList

/-- Build a JSON object payload from a key-value list. -/
def JFields.ofList : List (String × Json) → JFields
  | [] => .nil
  | (k, v) :: xs => .cons k v (JFields.ofList xs)

/-- The members of a JSON object as a key-value list. -/
def JFields.toList : JFields → List (String × Json)
  | .nil => []
  | .cons k v xs => (k, v) :: xs.toList

/-- The Python exceptions the extraction paths can produce. -/
inductive PyErr where
  | jsonDecodeError
  | attributeError
  | typeError
  | validationError
deriving DecidableEq, Repr

/-- The opening brace character. -/
def braceL : Char := Char.ofNat 123

/-- The closing brace character. -/
def braceR : Char := Char.ofNat 125

/-- Skip JSON whitespace (space, tab, newline, carriage return). -/
def skipWs : List Char → List Char
  | [] => []
  | c :: rest =>
    if c = ' ' ∨ c = '\n' ∨ c = '\t' ∨ c = '\r' then skipWs rest else c :: rest

/-- Hex digit value. -/
def hexVal (c : Char) : Option Nat :=
  if '0' ≤ c ∧ c ≤ '9' then some (c.toNat - 48)
  else if 'a' ≤ c ∧ c ≤ 'f' then some (c.toNat - 87)
  else if 'A' ≤ c ∧ c ≤ 'F' then some (c.toNat - 55)
  else none

/-- Parse the body of a JSON string literal after the opening quote,
handling the escape sequences; returns the string and the rest. -/
def parseStrGo : List Char → List Char → Option (List Char × List Char)
  | _, [] => none
  | acc, c :: rest =>
    if c = '"' then some (acc.reverse, rest)
    else if c = '\\' then
      match rest with
      | [] => none
      | e :: rest2 =>
        if e = 'n' then parseStrGo ('\n' :: acc) rest2
        else if e = 't' then parseStrGo ('\t' :: acc) rest2
        else if e = 'r' then parseStrGo ('\r' :: acc) rest2
        else if e = 'b' then parseStrGo ('\x08' :: acc) rest2
        else if e = 'f' then parseStrGo ('\x0c' :: acc) rest2
        else if e = '"' ∨ e = '\\' ∨ e = '/' then parseStrGo (e :: acc) rest2
        else if e = 'u' then
          match rest2 with
          | h1 :: h2 :: h3 :: h4 :: rest3 =>
            match hexVal h1, hexVal h2, hexVal h3, hexVal h4 with
            | some a, some b, some cc, some d =>
              parseStrGo (Char.ofNat (((a * 16 + b) * 16 + cc) * 16 + d) :: acc) rest3
            | _, _, _, _ => none
          | _ => none
        else none
    else parseStrGo (c :: acc) rest

/-- Read a digit run: accumulated value, digit count, rest. -/
def digitsGo : List Char → Nat → Nat → Nat × Nat × List Char
  | [], acc, n => (acc, n, [])
  | c :: rest, acc, n =>
    if c.isDigit then digitsGo rest (10 * acc + (c.toNat - 48)) (n + 1)
    else (acc, n, c :: rest)

/-- Parse a JSON number (sign, integer part, fraction, exponent) into an
exact rational. -/
def parseNumber (cs : List Char) : Option (ℚ × List Char) :=
  let signed : Bool × List Char :=
    match cs with
    | '-' :: r => (true, r)
    | _ => (false, cs)
  let ip := digitsGo signed.2 0 0
  if ip.2.1 = 0 then none
  else
    let frac : Option (Nat × Nat × List Char) :=
      match ip.2.2 with
      | '.' :: r =>
        let fp := digitsGo r 0 0
        if fp.2.1 = 0 then none else some fp
      | _ => some (0, 0, ip.2.2)
    match frac with
    | none => none
    | some fp =>
      let expPart : Option (Int × List Char) :=
        match fp.2.2 with
        | 'e' :: r =>
          match r with
          | '-' :: r2 =>
            let ep := digitsGo r2 0 0
            if ep.2.1 = 0 then none else some (-(ep.1 : Int), ep.2.2)
          | '+' :: r2 =>
            let ep := digitsGo r2 0 0
            if ep.2.1 = 0 then none else some ((ep.1 : Int), ep.2.2)
          | _ =>
            let ep := digitsGo r 0 0
            if ep.2.1 = 0 then none else some ((ep.1 : Int), ep.2.2)
        | 'E' :: r =>
          match r with
          | '-' :: r2 =>
            let ep := digitsGo r2 0 0
            if ep.2.1 = 0 then none else some (-(ep.1 : Int), ep.2.2)
          | '+' :: r2 =>
            let ep := digitsGo r2 0 0
            if ep.2.1 = 0 then none else some ((ep.1 : Int), ep.2.2)
          | _ =>
            let ep := digitsGo r 0 0
            if ep.2.1 = 0 then none else some ((ep.1 : Int), ep.2.2)
        | _ => some (0, fp.2.2)
      match expPart with
      | none => none
      | some ep =>
        let mantissa : Int := (ip.1 * 10 ^ fp.2.1 + fp.1 : Nat)
        let mantissa := if signed.1 then -mantissa else mantissa
        let e : Int := ep.1 - (fp.2.1 : Int)
        let q : ℚ :=
          if 0 ≤ e then mkRat (mantissa * 10 ^ e.toNat) 1
          else mkRat mantissa (10 ^ (-e).toNat)
        some (q, ep.2)

mutual

/-- Parse one JSON value; fuel bounds the recursion depth. -/
def parseJsonVal : Nat → List Char → Option (Json × List Char)
  | 0, _ => none
  | fuel + 1, cs0 =>
    match skipWs cs0 with
    | [] => none
    | c :: rest =>
      if c = 'n' then
        match rest with
        | 'u' :: 'l' :: 'l' :: r => some (.null, r)
        | _ => none
      else if c = 't' then
        match rest with
        | 'r' :: 'u' :: 'e' :: r => some (.bool true, r)
        | _ => none
      else if c = 'f' then
        match rest with
        | 'a' :: 'l' :: 's' :: 'e' :: r => some (.bool false, r)
        | _ => none
      else if c = '"' then
        match parseStrGo [] rest with
        | some (s, r) => some (.str (String.mk s), r)
        | none => none
      else if c = '[' then
        match skipWs rest with
        | ']' :: r => some (.arr .nil, r)
        | r2 =>
          match parseArrItems fuel r2 with
          | some (xs, r) => some (.arr (JItems.ofList xs), r)
          | none => none
      else if c = braceL then
        match skipWs rest with
        | [] => none
        | c2 :: r =>
          if c2 = braceR then some (.obj .nil, r)
          else
            match parseObjItems fuel (c2 :: r) with
            | some (kvs, rr) => some (.obj (JFields.ofList kvs), rr)
            | none => none
      else if c = '-' ∨ c.isDigit then
        match parseNumber (c :: rest) with
        | some (q, r) => some (.num q, r)
        | none => none
      else none

/-- Parse the comma-separated items of a nonempty JSON array, up to and
including the closing bracket. -/
def parseArrItems : Nat → List Char → Option (List Json × List Char)
  | 0, _ => none
  | fuel + 1, cs =>
    match parseJsonVal fuel cs with
    | none => none
    | some (v, r) =>
      match skipWs r with
      | ',' :: r2 =>
        match parseArrItems fuel r2 with
        | some (vs, rr) => some (v :: vs, rr)
        | none => none
      | c :: r2 => if c = ']' then some ([v], r2) else none
      | [] => none

/-- Parse the members of a nonempty JSON object, up to and including the
closing brace. -/
def parseObjItems : Nat → List Char → Option (List (String × Json) × List Char)
  | 0, _ => none
  | fuel + 1, cs =>
    match skipWs cs with
    | '"' :: r =>
      match parseStrGo [] r with
      | none => none
      | some (k, r2) =>
        match skipWs r2 with
        | ':' :: r3 =>
          match parseJsonVal fuel r3 with
          | none => none
          | some (v, r4) =>
            match skipWs r4 with
            | ',' :: r5 =>
              match parseObjItems fuel r5 with
              | some (kvs, rr) => some ((String.mk k, v) :: kvs, rr)
              | none => none
            | c :: r5 => if c = braceR then some ([(String.mk k, v)], r5) else none
            | [] => none
        | _ => none
    | _ => none

end

/-- `json.loads`: parse a complete JSON document, rejecting trailing
content, or raise `json.JSONDecodeError`. -/
def jsonLoads (s : String) : Except PyErr Json :=
  match parseJsonVal (2 * s.length + 2) s.data with
  | some (v, rest) => if skipWs rest = [] then .ok v else .error .jsonDecodeError
  | none => .error .jsonDecodeError

/-- Python `text.find(sub, start)` restricted to found positions: the
smallest index `i ≥ start` where `sub` occurs (`none` plays -1). -/
def findSubFrom (cs sub : List Char) (start : Nat) : Option Nat :=
  ((List.range (cs.length + 1)).filter
    (fun i => start ≤ i && sub.isPrefixOf (cs.drop i))).head?

/-- The last index at which character `c` occurs. -/
def lastIdxOf (cs : List Char) (c : Char) : Option Nat :=
  ((List.range cs.length).filter (fun i => (cs.take (i + 1)).getLast? = some c)).getLast?

/-- Python `cs[a:b]` for `a ≤ b`. -/
def pySlice (cs : List Char) (a b : Nat) : List Char := (cs.drop a).take (b - a)

/-- `result[json_start + 7:json_end].strip()`: the stripped contents of a
fenced block found at `js` with closing fence at `je`. -/
def fencedContent (text : String) (js je : Nat) : String :=
  pyStrip (String.mk (pySlice text.data (js + 7) je))

/-- The greedy-regex fallback of `KnowledgeCurator._parse_candidates`:
`re.search(r'\x5b\x5b\s\S\x5d*\x5d', result)` matches from the first `[`
of the text to the last `]` (when that is further right), and the match
is handed to `json.loads`; a parse failure is caught and leaves the
empty candidate list. -/
def parse_candidates_fallback (cs : List Char) : Json :=
  match findSubFrom cs ['['] 0 with
  | none => Json.arr .nil
  | some i =>
    match lastIdxOf cs ']' with
    | none => Json.arr .nil
    | some j =>
      if i < j then
        match jsonLoads (String.mk (pySlice cs i (j + 1))) with
        | .ok v => v
        | .error _ => Json.arr .nil
      else Json.arr .nil

/-- `KnowledgeCurator._parse_candidates`: prefer a language-tagged fenced
block (`\x60\x60\x60json` ... `\x60\x60\x60`); with no complete fence,
fall back to the greedy array regex. All `json.loads` failures are caught
(`JSONDecodeError` is a `ValueError`), leaving the empty list, so this
function is total. -/
def parse_candidates (result : String) : Json :=
  let cs := result.data
  match findSubFrom cs ("```json".data) 0 with
  | some js =>
    match findSubFrom cs ("```".data) (js + 7) with
    | some je =>
      match jsonLoads (fencedContent result js je) with
      | .ok v => v
      | .error _ => Json.arr .nil
    | none => parse_candidates_fallback cs
  | none => parse_candidates_fallback cs

/-- Python `data.get(key, default)`: on a dictionary, the value at `key`
or the default; on any other value, `AttributeError` (`.get` missing). -/
def jGet (j : Json) (key : String) (default : Json) : Except PyErr Json :=
  match j with
  | .obj fields =>
    match fields.toList.find? (fun kv => kv.1 = key) with
    | some kv => .ok kv.2
    | none => .ok default
  | _ => .error .attributeError

/-- Python `for x in j`: arrays yield items, strings yield characters,
dictionaries yield keys, everything else raises `TypeError`. -/
def jIter : Json → Except PyErr (List Json)
  | .arr xs => .ok xs.toList
  | .str s => .ok (s.data.map (fun c => Json.str (String.mk [c])))
  | .obj fields => .ok (fields.toList.map (fun kv => Json.str kv.1))
  | _ => .error .typeError

/-- A `Decision` as built by `_extract_decisions`: the field values are
kept as the raw JSON the dictionary lookups returned. -/
structure DecisionM where
  round : Nat
  topic : Json
  decision : Json
  rationale : Json
  made_by : String
deriving DecidableEq

/-- `ProgramPlanningCrew._extract_decisions`. Only `json.JSONDecodeError`
and `ValueError` are caught: `data.get` on a parsed payload that is not a
dictionary, or `d.get` on a non-dictionary list element, raises
`AttributeError` past the boundary. -/
def extract_decisions (synthesis_output : String) (round_num : Nat) :
    Except PyErr (List DecisionM) :=
  let cs := synthesis_output.data
  match findSubFrom cs ("```json".data) 0 with
  | none => .ok []
  | some js =>
    match findSubFrom cs ("```".data) (js + 7) with
    | none => .ok []
    | some je =>
      match jsonLoads (fencedContent synthesis_output js je) with
      | .error _ => .ok []
      | .ok data => do
        let ds ← jGet data "decisions" (Json.arr .nil)
        let items ← jIter ds
        items.mapM (fun d => do
          let topic ← jGet d "topic" (Json.str "Unknown")
          let dec ← jGet d "decision" (Json.str "")
          let rat ← jGet d "rationale" (Json.str "")
          pure { round := round_num, topic := topic, decision := dec,
                 rationale := rat, made_by := "Program Coordinator" })

/-- The per-synthesis loop of `ProgramPlanningCrew._extract_workstreams`
that accumulates `data.get("workstream_updates", [])` across rounds.
Parse failures are caught and skip the round; `AttributeError` or
`TypeError` from a wrongly-shaped payload propagates. -/
def extract_workstream_data : List String → Except PyErr (List Json)
  | [] => .ok []
  | s :: rest => do
    let items ← (
      match findSubFrom s.data ("```json".data) 0 with
      | none => pure []
      | some js =>
        match findSubFrom s.data ("```".data) (js + 7) with
        | none => pure []
        | some je =>
          match jsonLoads (fencedContent s js je) with
          | .error _ => pure []
          | .ok data => do
            let wsu ← jGet data "workstream_updates" (Json.arr .nil)
            jIter wsu)
    let restItems ← extract_workstream_data rest
    pure (items ++ restItems)

/-- `ws.get("name", "Unknown Workstream")`. -/
def jGetName (w : Json) : Except PyErr Json :=
  jGet w "name" (Json.str "Unknown Workstream")

/-- The `ws_by_name` insertion loop of `_extract_workstreams`: an
insertion-ordered dictionary keyed by the raw name value, first
occurrence wins. -/
def wsByNameGo (acc : List (Json × Json)) : List Json → Except PyErr (List (Json × Json))
  | [] => .ok acc
  | w :: rest =>
    match jGetName w with
    | .error e => .error e
    | .ok n =>
      if acc.any (fun kv => kv.1 = n) then wsByNameGo acc rest
      else wsByNameGo (acc ++ [(n, w)]) rest

/-! ## Workstreams, timeline and overall confidence (program_crew.py) -/

/-- A `Deliverable`, projected to identity and due month. -/
structure DeliverableM where
  id : Nat
  due_month : Option Int
deriving DecidableEq, Repr

/-- A `Workstream`. Identifiers are fresh UUIDs in the source, modelled
as distinct naturals. -/
structure WorkstreamM where
  id : Nat
  name : String
  description : String
  owner : String
  deliverables : List DeliverableM
  dependencies : List Nat
  start_month : Int
  end_month : Int
  confidence : ℚ
deriving DecidableEq, Repr

/-- Pydantic coercion of a JSON value into a `str` field, modelled for
exactly-typed values; anything else is a validation error. -/
def jAsStr : Json → Except PyErr String
  | .str s => .ok s
  | _ => .error .validationError

/-- Pydantic coercion of a JSON value into an `int` field, modelled for
integral numbers; anything else is a validation error. -/
def jAsInt : Json → Except PyErr Int
  | .num q => if q.den = 1 then .ok q.num else .error .validationError
  | _ => .error .validationError

/-- The `Workstream`-building loop of `_extract_workstreams` over the
name-keyed first-occurrence dictionary: one fresh workstream per entry
with one auto-generated deliverable due at its end month, empty
dependencies, and confidence 0.8. -/
def buildWsGo (idx : Nat) : List (Json × Json) → Except PyErr (List WorkstreamM)
  | [] => .ok []
  | (n, w) :: rest => do
    let name ← jAsStr n
    let desc ← jGet w "description" (Json.str "") >>= jAsStr
    let owner ← jGet w "owner" (Json.str "TBD") >>= jAsStr
    let sm ← jGet w "startMonth" (Json.num 1) >>= jAsInt
    let em ← jGet w "endMonth" (Json.num 3) >>= jAsInt
    let tl ← buildWsGo (idx + 1) rest
    pure ({ id := 2 * idx, name := name, description := desc, owner := owner,
            deliverables := [{ id := 2 * idx + 1, due_month := some em }],
            dependencies := [], start_month := sm, end_month := em,
            confidence := mkRat 8 10 } :: tl)

/-- `ProgramPlanningCrew._generate_default_workstreams`: the fixed
three-workstream template with a linear dependency chain. Identifiers
1-3 stand for the three fresh workstream UUIDs, 4-6 for their
deliverables. The float confidences 0.85, 0.80, 0.75 are exact. -/
def generate_default_workstreams (business_name : String) : List WorkstreamM :=
  [{ id := 1, name := "Strategy & Planning",
     description := "Define strategic objectives and create implementation roadmap for "
       ++ business_name,
     owner := "Strategy Lead",
     deliverables := [{ id := 4, due_month := some 1 }],
     dependencies := [], start_month := 1, end_month := 3,
     confidence := mkRat 85 100 },
   { id := 2, name := "Capability Development",
     description := "Build required capabilities and skills",
     owner := "Capability Lead",
     deliverables := [{ id := 5, due_month := some 2 }],
     dependencies := [1], start_month := 2, end_month := 5,
     confidence := mkRat 80 100 },
   { id := 3, name := "Execution & Delivery",
     description := "Execute strategic initiatives and deliver outcomes",
     owner := "Delivery Lead",
     deliverables := [{ id := 6, due_month := some 4 }],
     dependencies := [1, 2], start_month := 3, end_month := 6,
     confidence := mkRat 75 100 }]

/-- `ProgramPlanningCrew._extract_workstreams`: accumulate the structured
updates of every synthesis, key them by name with first occurrence
winning, build workstreams, and substitute the default template when none
were extracted. -/
def extract_workstreams (all_synthesis : List String) (business_name : String) :
    Except PyErr (List WorkstreamM) := do
  let workstream_data ← extract_workstream_data all_synthesis
  let by_name ← wsByNameGo [] workstream_data
  let workstreams ← buildWsGo 0 by_name
  if workstreams.isEmpty then pure (generate_default_workstreams business_name)
  else pure workstreams

/-- A `TimelinePhase`, with its single milestone inlined. -/
structure TimelinePhaseM where
  name : String
  start_month : Int
  end_month : Int
  workstream_ids : List Nat
  milestone_due : Int
  milestone_deliverable_ids : List Nat
deriving DecidableEq, Repr

/-- `Timeline`. -/
structure TimelineM where
  phases : List TimelinePhaseM
  total_months : Int
  critical_path : List Nat
deriving DecidableEq, Repr

/-- The phase loop of `_build_timeline`; each pass advances the cursor by
at least one month, so the fuel (one unit per month of the span) never
runs out. A deliverable is collected when its due month is truthy and at
most the phase end. -/
def buildPhasesGo (wss : List WorkstreamM) (maxM dur : Int) :
    Nat → Int → Nat → List TimelinePhaseM
  | 0, _, _ => []
  | fuel + 1, cur, phaseNum =>
    if cur ≤ maxM then
      let pEnd := min (cur + dur - 1) maxM
      let phaseWs := wss.filter
        (fun ws => decide (ws.start_month ≤ pEnd ∧ cur ≤ ws.end_month))
      let dls := (phaseWs.map (fun ws =>
        (ws.deliverables.filter (fun d =>
          match d.due_month with
          | some m => decide (m ≠ 0 ∧ m ≤ pEnd)
          | none => false)).map (fun d => d.id))).flatten
      { name := "Phase " ++ toString phaseNum
        start_month := cur
        end_month := pEnd
        workstream_ids := phaseWs.map (fun ws => ws.id)
        milestone_due := pEnd
        milestone_deliverable_ids := dls.take 5 } ::
        buildPhasesGo wss maxM dur fuel (pEnd + 1) (phaseNum + 1)
    else []

/-- The critical-path fold of `_build_timeline`: workstreams sorted by
start month, keeping each that has dependencies or comes first. -/
def critical_path_of (wss : List WorkstreamM) : List Nat :=
  (wss.mergeSort (fun a b => decide (a.start_month ≤ b.start_month))).foldl
    (fun acc ws => if ws.dependencies ≠ [] ∨ acc = [] then acc ++ [ws.id] else acc) []

/-- `ProgramPlanningCrew._build_timeline`. The phase width is
`max((max_month - min_month + 1) // 3, 2)` with Python floor division. -/
def build_timeline (workstreams : List WorkstreamM) : TimelineM :=
  if workstreams.isEmpty then
    { phases := [], total_months := 6, critical_path := [] }
  else
    let ends := workstreams.map (fun ws => ws.end_month)
    let starts := workstreams.map (fun ws => ws.start_month)
    let maxM := ends.foldl max (ends.headD 0)
    let minM := starts.foldl min (starts.headD 0)
    let dur := max ((maxM - minM + 1).fdiv 3) 2
    { phases := buildPhasesGo workstreams maxM dur ((maxM + 1 - minM).toNat + 1) minM 1
      total_months := maxM
      critical_path := critical_path_of workstreams }

/-- The `overall_confidence` computation of `ProgramPlanningCrew.generate`:
the mean workstream confidence, 0.8 with no workstreams. -/
def overall_confidence (workstreams : List WorkstreamM) : ℚ :=
  if workstreams.isEmpty then mkRat 8 10
  else (workstreams.map (fun ws => ws.confidence)).sum / (workstreams.length : ℚ)

/-! ### Default workstream scenario (C3) -/

/-- C3. On every generation run in which no workstream update is
extracted from any round's synthesis text, the final program carries
exactly the three default workstreams — Strategy & Planning (months 1-3,
no dependencies), Capability Development (months 2-5, depending on the
first), Execution & Delivery (months 3-6, depending on the first two) —
the timeline totals 6 months, and the overall confidence is the mean
(0.85 + 0.80 + 0.75)/3 = 0.80. -/
theorem default_program_on_no_extraction (syntheses : List String) (bn : String)
    (h : extract_workstream_data syntheses = .ok []) :
    extract_workstreams syntheses bn = .ok (generate_default_workstreams bn)
    ∧ (generate_default_workstreams bn).map (fun w => w.name)
        = ["Strategy & Planning", "Capability Development", "Execution & Delivery"]
    ∧ (generate_default_workstreams bn).map (fun w => (w.start_month, w.end_month))
        = [(1, 3), (2, 5), (3, 6)]
    ∧ (generate_default_workstreams bn).map (fun w => w.id) = [1, 2, 3]
    ∧ (generate_default_workstreams bn).map (fun w => w.dependencies) = [[], [1], [1, 2]]
    ∧ (build_timeline (generate_default_workstreams bn)).total_months = 6
    ∧ overall_confidence (generate_default_workstreams bn)
        = (mkRat 85 100 + mkRat 80 100 + mkRat 75 100) / 3
    ∧ (mkRat 85 100 + mkRat 80 100 + mkRat 75 100) / 3 = mkRat 8 10 := by
  refine ⟨?_, rfl, rfl, rfl, rfl, rfl, ?_, ?_⟩
  · unfold extract_workstreams
    rw [h]
    rfl
  · norm_num [overall_confidence, generate_default_workstreams, List.sum_cons,
      List.sum_nil, Rat.mkRat_eq_div]
  · norm_num [Rat.mkRat_eq_div]

/-- C3, witness: a run whose only synthesis has no structured block. -/
theorem default_program_on_no_extraction_witness :
    extract_workstreams ["All agents aligned."] "Acme"
        = .ok (generate_default_workstreams "Acme")
    ∧ (generate_default_workstreams "Acme").map (fun w => w.name)
        = ["Strategy & Planning", "Capability Development", "Execution & Delivery"]
    ∧ (generate_default_workstreams "Acme").map (fun w => (w.start_month, w.end_month))
        = [(1, 3), (2, 5), (3, 6)]
    ∧ (generate_default_workstreams "Acme").map (fun w => w.id) = [1, 2, 3]
    ∧ (generate_default_workstreams "Acme").map (fun w => w.dependencies)
        = [[], [1], [1, 2]]
    ∧ (build_timeline (generate_default_workstreams "Acme")).total_months = 6
    ∧ overall_confidence (generate_default_workstreams "Acme")
        = (mkRat 85 100 + mkRat 80 100 + mkRat 75 100) / 3
    ∧ (mkRat 85 100 + mkRat 80 100 + mkRat 75 100) / 3 = mkRat 8 10 :=
  default_program_on_no_extraction ["All agents aligned."] "Acme" rfl

/-! ### Extraction never raises (C4) -/

/-- C4. The claim that structured-data extraction never raises fails for
decision parsing: a fenced block holding the well-formed JSON array `[1]`
makes `_extract_decisions` call `data.get` on a list, which raises
`AttributeError` past its boundary instead of returning the empty list
(candidate parsing, by contrast, is total by construction, catching every
parse failure). -/
theorem extract_decisions_raises_attribute_error :
    extract_decisions "```json\n[1]\n```" 1 = .error .attributeError := rfl

/-! ### Fenced-block preference and bare-literal fallback (C5) -/

/-- C5, counterexample. With no fenced block, candidate extraction does
not parse the first balanced array literal: on `"see [1] and [2] end"`
the greedy regex spans `[1] and [2]`, `json.loads` fails, and the empty
list is returned — not the parse of `[1]`. -/
theorem parse_candidates_first_literal_counterexample :
    parse_candidates "see [1] and [2] end" = Json.arr .nil
    ∧ jsonLoads "[1]" = .ok (Json.arr (.cons (.num 1) .nil))
    ∧ Json.arr .nil ≠ Json.arr (.cons (.num 1) .nil) :=
  ⟨rfl, rfl, by decide⟩

/-- C5, amended. When a closed language-tagged fenced block is present
and its contents parse, candidate extraction returns that parse (so the
fenced block is preferred over any bare literal). With no fenced block,
candidate extraction falls back to the span from the first `[` to the
last `]` of the whole text — not the first balanced literal, and arrays
only — returning its parse when it is valid JSON and the empty list
otherwise; decision extraction has no bare-literal fallback at all and
returns the empty list. -/
theorem extraction_fence_preference_amended :
    (∀ (text : String) (js je : Nat) (v : Json),
      findSubFrom text.data ("```json".data) 0 = some js →
      findSubFrom text.data ("```".data) (js + 7) = some je →
      jsonLoads (fencedContent text js je) = .ok v →
      parse_candidates text = v)
    ∧ (∀ (text : String) (i j : Nat) (v : Json),
      findSubFrom text.data ("```json".data) 0 = none →
      findSubFrom text.data ['['] 0 = some i →
      lastIdxOf text.data ']' = some j →
      i < j →
      jsonLoads (String.mk (pySlice text.data i (j + 1))) = .ok v →
      parse_candidates text = v)
    ∧ (∀ (text : String) (r : Nat),
      findSubFrom text.data ("```json".data) 0 = none →
      extract_decisions text r = .ok []) := by
  refine ⟨?_, ?_, ?_⟩
  · intro text js je v h1 h2 h3
    simp only [parse_candidates, h1, h2, h3]
  · intro text i j v h1 h2 h3 hij h5
    simp only [parse_candidates, parse_candidates_fallback, h1, h2, h3, if_pos hij, h5]
  · intro text r h1
    simp only [extract_decisions, h1]

/-- C5, witness: a fenced block wins over a bare literal; the bare-array
fallback parses the first-to-last bracket span; decisions without a fence
are empty. -/
theorem extraction_fence_preference_amended_witness :
    parse_candidates "```json\n[2]\n``` and [9]" = Json.arr (.cons (.num 2) .nil)
    ∧ parse_candidates "only [7] here" = Json.arr (.cons (.num 7) .nil)
    ∧ extract_decisions "no fence [1]" 3 = .ok [] :=
  ⟨extraction_fence_preference_amended.1 "```json\n[2]\n``` and [9]" 0 12
      (Json.arr (.cons (.num 2) .nil)) rfl rfl rfl,
   extraction_fence_preference_amended.2.1 "only [7] here" 5 7
      (Json.arr (.cons (.num 7) .nil)) rfl rfl rfl (by decide) rfl,
   extraction_fence_preference_amended.2.2 "no fence [1]" 3 rfl⟩

/-! ### Workstream merging is first-occurrence-wins (C7) -/

/-- `w` is the first element of `l` whose name is `n`: it occurs in `l`,
its name lookup yields `n`, and no earlier element's name lookup does. -/
def FirstOcc (n w : Json) (l : List Json) : Prop :=
  ∃ pre suf, l = pre ++ w :: suf ∧ jGetName w = .ok n
    ∧ ∀ w2 ∈ pre, ¬ (jGetName w2 = .ok n)

theorem wsByNameGo_spec (l : List Json) :
    ∀ acc res, wsByNameGo acc l = .ok res →
      ((acc.map (fun kv => kv.1)).Nodup → (res.map (fun kv => kv.1)).Nodup)
      ∧ (∃ ext, res = acc ++ ext
          ∧ ∀ kv ∈ ext, kv.1 ∉ acc.map (fun kv2 => kv2.1) ∧ FirstOcc kv.1 kv.2 l)
      ∧ (∀ w ∈ l, ∀ n, jGetName w = .ok n → n ∈ res.map (fun kv => kv.1)) := by
  induction l with
  | nil =>
    intro acc res h
    simp only [wsByNameGo] at h
    injection h with h
    subst h
    exact ⟨id, ⟨[], by simp, by simp⟩, by simp⟩
  | cons w rest ih =>
    intro acc res h
    simp only [wsByNameGo] at h
    cases hn : jGetName w with
    | error e => simp only [hn] at h; exact Except.noConfusion h
    | ok n0 =>
      simp only [hn] at h
      by_cases hmem : acc.any (fun kv => kv.1 = n0) = true
      · rw [if_pos hmem] at h
        have hn0mem : n0 ∈ acc.map (fun kv => kv.1) := by
          simp only [List.any_eq_true, decide_eq_true_eq] at hmem
          obtain ⟨kv, hkv, hkv1⟩ := hmem
          exact hkv1 ▸ List.mem_map_of_mem _ hkv
        obtain ⟨hnodup, ⟨ext, hres, hext⟩, hcompl⟩ := ih acc res h
        refine ⟨hnodup, ⟨ext, hres, ?_⟩, ?_⟩
        · intro kv hkv
          obtain ⟨hnot, pre, suf, hl, hname, hpre⟩ := hext kv hkv
          refine ⟨hnot, w :: pre, suf, by simp [hl], hname, ?_⟩
          intro w2 hw2
          rcases List.mem_cons.mp hw2 with rfl | hw2'
          · intro hc
            rw [hn] at hc
            injection hc with hc
            exact hnot (hc ▸ hn0mem)
          · exact hpre w2 hw2'
        · intro w2 hw2 n hw2n
          rcases List.mem_cons.mp hw2 with rfl | hw2'
          · rw [hn] at hw2n
            injection hw2n with e
            subst e
            rw [hres, List.map_append]
            exact List.mem_append_left _ hn0mem
          · exact hcompl w2 hw2' n hw2n
      · rw [if_neg hmem] at h
        have hn0notin : n0 ∉ acc.map (fun kv => kv.1) := by
          intro hc
          apply hmem
          simp only [List.any_eq_true, decide_eq_true_eq]
          obtain ⟨kv, hkv, hkv1⟩ := List.mem_map.mp hc
          exact ⟨kv, hkv, hkv1⟩
        obtain ⟨hnodup, ⟨ext, hres, hext⟩, hcompl⟩ := ih (acc ++ [(n0, w)]) res h
        refine ⟨?_, ⟨(n0, w) :: ext, ?_, ?_⟩, ?_⟩
        · intro hnd
          apply hnodup
          simp only [List.map_append, List.map_cons, List.map_nil]
          simp [List.nodup_append, hnd, hn0notin]
        · rw [hres]; simp [List.append_assoc]
        · intro kv hkv
          rcases List.mem_cons.mp hkv with rfl | hkv'
          · exact ⟨hn0notin, [], rest, rfl, hn, by simp⟩
          · obtain ⟨hnot, pre, suf, hl, hname, hpre⟩ := hext kv hkv'
            have hne : kv.1 ≠ n0 ∧ kv.1 ∉ acc.map (fun kv2 => kv2.1) := by
              rw [List.map_append, List.map_cons, List.map_nil] at hnot
              simp only [List.mem_append, List.mem_singleton, not_or] at hnot
              exact ⟨hnot.2, hnot.1⟩
            refine ⟨hne.2, w :: pre, suf, by simp [hl], hname, ?_⟩
            intro w2 hw2
            rcases List.mem_cons.mp hw2 with rfl | hw2'
            · intro hc
              rw [hn] at hc
              injection hc with hc
              exact hne.1 hc.symm
            · exact hpre w2 hw2'
        · intro w2 hw2 n hw2n
          rcases List.mem_cons.mp hw2 with rfl | hw2'
          · rw [hn] at hw2n
            injection hw2n with e
            subst e
            rw [hres]
            simp [List.map_append]
          · exact hcompl w2 hw2' n hw2n

/-- C7. Workstream merging across rounds is a union keyed by name with
the first occurrence winning: for every sequence of round synthesis
blocks whose accumulated updates key successfully, the merged dictionary
has pairwise-distinct names, each entry is literally the earliest update
dictionary carrying that name (later same-name entries are dropped whole,
not merged field-by-field), and every named update is represented. -/
theorem workstream_union_first_wins (syntheses : List String) (data : List Json)
    (pairs : List (Json × Json))
    (_hd : extract_workstream_data syntheses = .ok data)
    (hp : wsByNameGo [] data = .ok pairs) :
    (pairs.map (fun kv => kv.1)).Nodup
    ∧ (∀ kv ∈ pairs, FirstOcc kv.1 kv.2 data)
    ∧ (∀ w ∈ data, ∀ n, jGetName w = .ok n → n ∈ pairs.map (fun kv => kv.1)) := by
  obtain ⟨hnodup, ⟨ext, hres, hext⟩, hcompl⟩ := wsByNameGo_spec data [] pairs hp
  refine ⟨hnodup (by simp), ?_, hcompl⟩
  intro kv hkv
  rw [hres] at hkv
  simp only [List.nil_append] at hkv
  exact (hext kv hkv).2

/-- Round-1 synthesis of the claim's example: workstreams A (owner o1)
and B. -/
def synthR1 : String :=
  "```json\n\x7b\"workstream_updates\": [\x7b\"name\": \"A\", \"owner\": \"o1\"\x7d, \x7b\"name\": \"B\"\x7d]\x7d\n```"

/-- Round-2 synthesis of the claim's example: workstreams A again (owner
o2) and C. -/
def synthR2 : String :=
  "```json\n\x7b\"workstream_updates\": [\x7b\"name\": \"A\", \"owner\": \"o2\"\x7d, \x7b\"name\": \"C\"\x7d]\x7d\n```"

/-- The update dictionaries of the example, in extraction order. -/
def wsObjA1 : Json := .obj (.cons "name" (.str "A") (.cons "owner" (.str "o1") .nil))

def wsObjB : Json := .obj (.cons "name" (.str "B") .nil)

def wsObjA2 : Json := .obj (.cons "name" (.str "A") (.cons "owner" (.str "o2") .nil))

def wsObjC : Json := .obj (.cons "name" (.str "C") .nil)

/-- C7, witness: rounds producing [A, B] then [A, C] merge to
{A from round 1, B, C}, by the theorem. -/
theorem workstream_union_first_wins_witness :
    ((([(Json.str "A", wsObjA1), (Json.str "B", wsObjB), (Json.str "C", wsObjC)]).map
        (fun kv => kv.1)).Nodup)
    ∧ (∀ kv ∈ [(Json.str "A", wsObjA1), (Json.str "B", wsObjB), (Json.str "C", wsObjC)],
        FirstOcc kv.1 kv.2 [wsObjA1, wsObjB, wsObjA2, wsObjC])
    ∧ (∀ w ∈ [wsObjA1, wsObjB, wsObjA2, wsObjC], ∀ n, jGetName w = .ok n →
        n ∈ ([(Json.str "A", wsObjA1), (Json.str "B", wsObjB),
              (Json.str "C", wsObjC)]).map (fun kv => kv.1)) :=
  workstream_union_first_wins [synthR1, synthR2]
    [wsObjA1, wsObjB, wsObjA2, wsObjC]
    [(Json.str "A", wsObjA1), (Json.str "B", wsObjB), (Json.str "C", wsObjC)]
    rfl rfl

/-! ## Job lifecycle (main.py) -/

/-- The progress value `on_round_progress` writes for a reported round:
`min(10 + round_num * 10, 80)`. -/
def round_progress (round_num : Nat) : Nat := min (10 + 10 * round_num) 80

/-- Modelled from the spec: the round loop of `generate_sync`, the
variant of `generate` that invokes the progress callback, is not among
the sources (only its caller `_run_generation_job` and the callback body
are); spec §4.2 fixes that the orchestrator reports rounds in order,
never regressing and never double-reporting a round. The sequence of
progress values a job's record takes from creation to the end of the
worker is then: 0 at job creation, 5 on entering the worker, 10 after
agent initialisation, one callback value per reported round, then 85
before knowledge curation and 100 on completion; a failure stops the
sequence early and writes no further progress value. -/
def job_progress_trace (rounds : List Nat) (reached_post completed : Bool) : List Nat :=
  [0, 5, 10] ++ rounds.map round_progress
    ++ (if reached_post then 85 :: (if completed then [100] else []) else [])

/-- C8. Job progress is monotonically non-decreasing: for every run whose
rounds are reported in non-decreasing order, the full sequence of
progress values the worker writes is sorted, so any sequence of polls of
that job observes non-decreasing progress. -/
theorem job_progress_monotone (rounds : List Nat) (reached_post completed : Bool)
    (h : rounds.Sorted (· ≤ ·)) :
    (job_progress_trace rounds reached_post completed).Sorted (· ≤ ·) := by
  have hb : ∀ x ∈ rounds.map round_progress, 10 ≤ x ∧ x ≤ 80 := by
    intro x hx
    obtain ⟨r, _, rfl⟩ := List.mem_map.mp hx
    unfold round_progress
    omega
  have hmap : (rounds.map round_progress).Sorted (· ≤ ·) := by
    refine h.map _ ?_
    intro a b hab
    unfold round_progress
    omega
  have htail : ∀ y ∈ (if reached_post then
      85 :: (if completed then [100] else []) else ([] : List Nat)), 85 ≤ y := by
    cases reached_post <;> cases completed <;> simp
  unfold job_progress_trace
  unfold List.Sorted at hmap ⊢
  rw [List.pairwise_append, List.pairwise_append]
  refine ⟨⟨by decide, hmap, ?_⟩, ?_, ?_⟩
  · intro x hx y hy
    have h10 := (hb y hy).1
    have hx10 : x ≤ 10 := by
      simp only [List.mem_cons, List.not_mem_nil, or_false] at hx
      rcases hx with rfl | rfl | rfl <;> omega
    omega
  · cases reached_post <;> cases completed <;> decide
  · intro x hx y hy
    have h85 := htail y hy
    rcases List.mem_append.mp hx with hx1 | hx2
    · have hx10 : x ≤ 10 := by
        simp only [List.mem_cons, List.not_mem_nil, or_false] at hx1
        rcases hx1 with rfl | rfl | rfl <;> omega
      omega
    · have := (hb x hx2).2
      omega

/-- C8, witness: the standard seven-round completed run. -/
theorem job_progress_monotone_witness :
    (job_progress_trace [1, 2, 3, 4, 5, 6, 7] true true).Sorted (· ≤ ·) :=
  job_progress_monotone [1, 2, 3, 4, 5, 6, 7] true true (by decide)

/-- The job-record fields the worker's failure handler touches. -/
structure JobRecord where
  status : String
  progress : Nat
  message : String
  error : Option String
deriving DecidableEq, Repr

/-- The `except` handler of `_run_generation_job`, as a function of the
exception text and of the formatted traceback: status becomes `failed`,
the error field receives `"Generation failed: " + str(e)` whole, the
message field receives `"Failed: " + str(e)[:100]`; the traceback is only
printed to the process log. -/
def run_generation_job_on_failure (job : JobRecord) (emsg _traceback : String) : JobRecord :=
  { job with
    status := "failed"
    error := some ("Generation failed: " ++ emsg)
    message := "Failed: " ++ pyTake emsg 100 }

/-- A 150-character exception message. -/
def e150 : String := String.mk (List.replicate 150 'x')

/-- A failed job record to update. -/
def j0 : JobRecord := { status := "running", progress := 85, message := "m", error := none }

set_option maxRecDepth 4000 in
/-- C9, counterexample. The externally visible error field is not
truncated: a 150-character exception message is stored whole, so the
error field holds strictly more than the 100-character truncation that
the claim allows (only the separate message field is truncated). -/
theorem job_error_untruncated_counterexample :
    (run_generation_job_on_failure j0 e150 "trace").error
      = some ("Generation failed: " ++ e150)
    ∧ ¬ (((run_generation_job_on_failure j0 e150 "trace").error.getD "").length
          ≤ "Generation failed: ".length + 100) :=
  ⟨rfl, by decide⟩

/-- C9, amended. On any unhandled failure the job transitions directly to
`failed`; the error field carries `"Generation failed: "` plus the full,
untruncated exception message; the 100-character truncation applies to
the separate message field; the update is independent of the diagnostic
traceback, which therefore never reaches the error field; and the
progress value is left unchanged. -/
theorem job_failure_update_amended (job : JobRecord) (emsg tb1 tb2 : String) :
    (run_generation_job_on_failure job emsg tb1).status = "failed"
    ∧ (run_generation_job_on_failure job emsg tb1).error
        = some ("Generation failed: " ++ emsg)
    ∧ (run_generation_job_on_failure job emsg tb1).message
        = "Failed: " ++ pyTake emsg 100
    ∧ run_generation_job_on_failure job emsg tb1 = run_generation_job_on_failure job emsg tb2
    ∧ (run_generation_job_on_failure job emsg tb1).progress = job.progress :=
  ⟨rfl, rfl, rfl, rfl, rfl⟩

end Premisia
